import Mathlib

/-!
Formal model of the IdM Access Configurator (ACF): the configuration
reconciliation engine that maps an application definition to a deterministic
set of identity/access-control objects (host groups, external groups, POSIX
groups, HBAC rules, sudo rules), applies them with per-object failure
isolation, and tracks staleness between declared configuration and what was
last applied.

The frontend helper functions (`getApplyResultsSummary`,
`getApplicationStatusColor`, `getHealthScore`) are embedded directly from the
TypeScript source.  The backend engine itself (naming resolver, desired-state
builder, reconciliation executor, application store, temporary-access
lifecycle) is not shipped in the repository; those definitions are modelled
from the specification and are marked as such in their doc comments.
-/

deriving instance DecidableEq for Except

namespace IdmAcf

/-- Lower-case a string character by character (the naming resolver
lower-cases the application, environment and role components). -/
def strToLower (s : String) : String := ⟨s.data.map Char.toLower⟩

/-- TrustDomain record: `{name, netbios_name, realm, type}` as in the
TypeScript interface `TrustDomain`. -/
structure TrustDomain where
  name : String
  netbios_name : String
  realm : String
  type : String
deriving Repr, DecidableEq

/-- Environment record: `{name, host_pattern, roles}` as in the TypeScript
interface `Environment`. -/
structure Environment where
  name : String
  host_pattern : String
  roles : List String
deriving Repr, DecidableEq

/-- One per-object apply outcome: `{success, output_or_error}`. -/
structure ApplyEntry where
  success : Bool
  output_or_error : String
deriving Repr, DecidableEq

/-- An apply result set: category name mapped to per-object entries
(`category -> {object_name -> {success, output_or_error}}`), modelled as an
association list. -/
def ApplyResultSet : Type := List (String × List (String × ApplyEntry))

/-- Application record as in the TypeScript interface `Application`;
timestamps are modelled as natural numbers. -/
structure Application where
  name : String
  description : String
  realms : List String
  environments : List Environment
  created_at : Nat
  updated_at : Nat
  last_applied : Option Nat
  last_apply_results : Option ApplyResultSet

/-- Association-list lookup by string key (first match wins), used for the
role catalog and for apply result sets keyed by category. -/
def findEntry {α : Type} (k : String) : List (String × α) → Option α
  | [] => none
  | (k2, v) :: rest => if k2 = k then some v else findEntry k rest

/-- Modelled from the spec: `canonicalGroupName(application, environment,
role)` of the Naming and Template Resolver, using the fixed pattern
`IdM_{application}_{environment}_{role}` with the three components
lower-cased (the backend implementing it is not in the repository). -/
def canonicalGroupName (application environment role : String) : String :=
  "IdM_" ++ strToLower application ++ "_" ++ strToLower environment ++ "_" ++ strToLower role

/-- Modelled from the spec: `externalGroupReference(netbios_name,
group_name)` using the pattern `{netbios_name}\{group_name}` (the backend
implementing it is not in the repository). -/
def externalGroupReference (netbios_name group_name : String) : String :=
  netbios_name ++ "\\" ++ group_name

/-- Replace every occurrence of the placeholder `{app}` in a character list
by the application name. -/
def replaceApp (appName : List Char) : List Char → List Char
  | '{' :: 'a' :: 'p' :: 'p' :: '}' :: rest => appName ++ replaceApp appName rest
  | c :: rest => c :: replaceApp appName rest
  | [] => []

/-- Modelled from the spec: `hostPattern(application, environment_template)`
substitutes the application name into the environment template, e.g.
`*{app}*dev*` (the backend implementing it is not in the repository). -/
def hostPattern (application environment_template : String) : String :=
  ⟨replaceApp application.data environment_template.data⟩

/-- Modelled from the spec: the fixed, global role catalog
(`full`: all privileges, `devops`: service-management commands, `readonly`:
read-only inspection commands), with the command sets documented in the
repository README (the backend holding the catalog is not shipped). -/
def roleCatalog : List (String × List String) :=
  [("full", ["ALL"]),
   ("devops", ["systemctl", "journalctl"]),
   ("readonly", ["cat", "less", "tail", "head"])]

/-- Modelled from the spec: `sudoCommands(role)` from the fixed role
catalog. -/
def sudoCommands (role : String) : Option (List String) :=
  findEntry role roleCatalog

/-- The five desired-object categories of one reconciliation pass. -/
inductive ObjCategory where
  | hostgroup
  | external_group
  | posix_group
  | hbac_rule
  | sudo_rule
deriving Repr, DecidableEq

/-- A desired object built per apply pass: `{category, canonical_name,
attributes}`. -/
structure DesiredObject where
  category : ObjCategory
  canonical_name : String
  attributes : List (String × String)
deriving Repr, DecidableEq

/-- Build errors of the desired-state builder: `UnknownRealm` when a realm
is not in the trust-domain catalog, `UnknownRole` when a role is not in the
fixed role catalog. -/
inductive BuildError where
  | UnknownRealm (realm : String)
  | UnknownRole (role : String)
deriving Repr, DecidableEq

/-- Modelled from the spec: the five objects derived for one
(realm, environment, role) triple — one host group (by host pattern), one
external group (realm-linked), one POSIX group (containing the external
group), one HBAC rule (binding the host group to the POSIX group for SSH)
and one sudo rule (binding the POSIX group, host group and the role command
set). -/
def objectsFor (appName netbios : String) (env : Environment) (role : String)
    (cmds : List String) : List DesiredObject :=
  let g := canonicalGroupName appName env.name role
  let hg := g ++ "_hosts"
  [⟨.hostgroup, hg, [("host_pattern", hostPattern appName env.host_pattern)]⟩,
   ⟨.external_group, g ++ "_external",
     [("realm", netbios), ("external_member", externalGroupReference netbios g)]⟩,
   ⟨.posix_group, g, [("member_group", g ++ "_external")]⟩,
   ⟨.hbac_rule, g ++ "_hbac", [("hostgroup", hg), ("group", g), ("service", "sshd")]⟩,
   ⟨.sudo_rule, g ++ "_sudo",
     [("hostgroup", hg), ("group", g), ("commands", String.intercalate ", " cmds)]⟩]

/-- A realm identifier validates against the trust-domain list when some
trust domain carries it as NetBIOS name. -/
def validRealm (tds : List TrustDomain) (realm : String) : Bool :=
  tds.any (fun d => d.netbios_name = realm)

/-- Modelled from the spec: innermost loop of the desired-state builder —
for each role of an environment, in declared order, resolve the role against
the fixed catalog (else `UnknownRole`) and emit the five objects of the
triple. -/
def buildRoles (appName netbios : String) (env : Environment) :
    List String → Except BuildError (List DesiredObject)
  | [] => Except.ok []
  | role :: rest =>
    match findEntry role roleCatalog with
    | none => Except.error (BuildError.UnknownRole role)
    | some cmds =>
      match buildRoles appName netbios env rest with
      | Except.error e => Except.error e
      | Except.ok restObjs => Except.ok (objectsFor appName netbios env role cmds ++ restObjs)

/-- Modelled from the spec: middle loop of the desired-state builder — for
each environment in declared order, build the objects of all its roles. -/
def buildEnvs (appName netbios : String) :
    List Environment → Except BuildError (List DesiredObject)
  | [] => Except.ok []
  | env :: rest =>
    match buildRoles appName netbios env env.roles with
    | Except.error e => Except.error e
    | Except.ok envObjs =>
      match buildEnvs appName netbios rest with
      | Except.error e => Except.error e
      | Except.ok restObjs => Except.ok (envObjs ++ restObjs)

/-- Modelled from the spec: outer loop of the desired-state builder — for
each realm in declared order, validated against the trust-domain list (else
`UnknownRealm`), build the objects of all environments. -/
def buildRealms (app : Application) (tds : List TrustDomain) :
    List String → Except BuildError (List DesiredObject)
  | [] => Except.ok []
  | realm :: rest =>
    if validRealm tds realm then
      match buildEnvs app.name realm app.environments with
      | Except.error e => Except.error e
      | Except.ok realmObjs =>
        match buildRealms app tds rest with
        | Except.error e => Except.error e
        | Except.ok restObjs => Except.ok (realmObjs ++ restObjs)
    else Except.error (BuildError.UnknownRealm realm)

/-- Modelled from the spec: `build(application, trustDomains)` of the
desired-state builder, enumerating realm by realm, then environment, then
role, each in declared order. -/
def build (app : Application) (tds : List TrustDomain) :
    Except BuildError (List DesiredObject) :=
  buildRealms app tds app.realms

/-- The object list `build` produces on fully valid input: the flat
realm-major, then environment, then role enumeration, five objects per
triple. -/
def desiredList (app : Application) : List DesiredObject :=
  app.realms.flatMap fun realm =>
    app.environments.flatMap fun env =>
      env.roles.flatMap fun role =>
        objectsFor app.name realm env role ((findEntry role roleCatalog).getD [])

/-- Modelled from the spec: the reconciliation executor ensures one desired
object; a raised failure is caught and recorded as
`{success := false, output_or_error := message}`, never rethrown. -/
def ensureOne (ensure : DesiredObject → Except String String)
    (o : DesiredObject) : ApplyEntry :=
  match ensure o with
  | Except.ok out => ⟨true, out⟩
  | Except.error msg => ⟨false, msg⟩

/-- Modelled from the spec: the reconciliation executor attempts every
desired object exactly once, in order, each attempt independent; the result
is the per-object entry list. -/
def applyAll (ensure : DesiredObject → Except String String)
    (objs : List DesiredObject) : List (String × ApplyEntry) :=
  objs.map fun o => (o.canonical_name, ensureOne ensure o)

/-- Whether the ensure operation for one object raises a failure. -/
def ensureFails (ensure : DesiredObject → Except String String)
    (o : DesiredObject) : Bool :=
  match ensure o with
  | Except.ok _ => false
  | Except.error _ => true

/-- The result-set key of each object category. -/
def categoryKey : ObjCategory → String
  | .hostgroup => "hostgroups"
  | .external_group => "external_groups"
  | .posix_group => "posix_groups"
  | .hbac_rule => "hbac_rules"
  | .sudo_rule => "sudo_rules"

/-- The five category keys in their fixed order. -/
def categoryKeys : List String :=
  ["hostgroups", "external_groups", "posix_groups", "hbac_rules", "sudo_rules"]

/-- Modelled from the spec: the executor aggregates per-object outcomes by
category into the apply result set. -/
def applyResultSet (ensure : DesiredObject → Except String String)
    (objs : List DesiredObject) : ApplyResultSet :=
  categoryKeys.map fun ck =>
    (ck, applyAll ensure (objs.filter fun o => categoryKey o.category = ck))

/-- Modelled from the spec: the executor post-condition write — on
completion of a pass, regardless of individual failures, `last_applied` is
set to the current time and `last_apply_results` is replaced with the new
result set; no other field is touched. -/
def applyWrite (app : Application) (now : Nat) (results : ApplyResultSet) :
    Application :=
  { app with last_applied := some now, last_apply_results := some results }

/-- Modelled from the spec: a plain application-store edit — mutating
name, description, realms or environments bumps `updated_at` to the current
time and touches nothing else. -/
def editApplication (app : Application) (now : Nat) (name description : String)
    (realms : List String) (environments : List Environment) : Application :=
  { app with
      name := name
      description := description
      realms := realms
      environments := environments
      updated_at := now }

/-- Frontend status colour, embedded from `getApplicationStatusColor` in
`ApplicationManager.tsx` and `Index.tsx`: `secondary` when never applied,
`default` when `last_applied >= updated_at`, `destructive` otherwise. -/
def getApplicationStatusColor (app : Application) : String :=
  match app.last_applied with
  | none => "secondary"
  | some lastApplied => if lastApplied ≥ app.updated_at then "default" else "destructive"

/-- The staleness predicate as worded by the spec: an application is stale
exactly when `updated_at > last_applied`; derived on each evaluation from the
record fields, never stored. -/
def isStale (app : Application) : Bool :=
  match app.last_applied with
  | none => false
  | some lastApplied => app.updated_at > lastApplied

/-- Temporary-access request status, as in the TypeScript union
`pending | approved | denied | expired`. -/
inductive ReqStatus where
  | pending
  | approved
  | denied
  | expired
deriving Repr, DecidableEq

/-- TemporaryAccessRequest record as in the TypeScript interface; timestamps
are modelled as natural numbers of seconds. -/
structure TemporaryAccessRequest where
  id : String
  user : String
  domain : String
  application : String
  environment : String
  role : String
  reason : String
  requested_by : String
  requested_at : Nat
  expires_at : Nat
  status : ReqStatus
  approved_by : Option String
  approved_at : Option Nat
deriving Repr, DecidableEq

/-- Modelled from the spec: the direct-grant path — a request created via
grant with a duration in hours is materialized already approved, with
`expires_at = requested_at + duration` hours (the backend handler of
`/api/temporary-access/grant` is not in the repository). -/
def grantAccess (id user domain application environment role reason requestedBy : String)
    (durationHours : Nat) (now : Nat) : TemporaryAccessRequest :=
  { id := id
    user := user
    domain := domain
    application := application
    environment := environment
    role := role
    reason := reason
    requested_by := requestedBy
    requested_at := now
    expires_at := now + durationHours * 3600
    status := ReqStatus.approved
    approved_by := some requestedBy
    approved_at := some now }

/-- Modelled from the spec: explicit approval — only a pending request
transitions to approved. -/
def approveRequest (req : TemporaryAccessRequest) (approver : String) (now : Nat) :
    TemporaryAccessRequest :=
  if req.status = ReqStatus.pending then
    { req with status := ReqStatus.approved, approved_by := some approver,
               approved_at := some now }
  else req

/-- Modelled from the spec: explicit rejection — only a pending request
transitions to denied. -/
def denyRequest (req : TemporaryAccessRequest) : TemporaryAccessRequest :=
  if req.status = ReqStatus.pending then { req with status := ReqStatus.denied } else req

/-- Modelled from the spec: explicit operator revocation — an approved
request transitions immediately to the terminal `expired` status. -/
def revokeRequest (req : TemporaryAccessRequest) : TemporaryAccessRequest :=
  if req.status = ReqStatus.approved then { req with status := ReqStatus.expired } else req

/-- Modelled from the spec: the time-driven sweep — an approved request
whose `expires_at` has been passed by the current time transitions to
`expired`; expiry is computed from `expires_at` against current time, never
from elapsed ticks. -/
def sweepRequest (req : TemporaryAccessRequest) (now : Nat) : TemporaryAccessRequest :=
  if req.status = ReqStatus.approved ∧ req.expires_at < now then
    { req with status := ReqStatus.expired }
  else req

/-- Modelled from the spec: a status read recomputes expiry from
`expires_at` compared against current time. -/
def readStatus (req : TemporaryAccessRequest) (now : Nat) : ReqStatus :=
  if req.status = ReqStatus.approved ∧ req.expires_at < now then ReqStatus.expired
  else req.status

/-- One row of the frontend apply-results summary. -/
structure CategorySummary where
  category : String
  successful : Nat
  total : Nat
deriving Repr, DecidableEq

/-- Embedded from `getApplyResultsSummary` in `ApplicationManager.tsx`:
null input yields null; otherwise for each of the five fixed categories the
entries under that key (or none, when the key is absent) are counted as
successful over total. -/
def getApplyResultsSummary (results : Option ApplyResultSet) :
    Option (List CategorySummary) :=
  match results with
  | none => none
  | some r =>
    some (categoryKeys.map fun category =>
      let items := (findEntry category r).getD []
      { category := category
        successful := (items.filter fun it => it.2.success).length
        total := items.length })

/-- SystemStatus record as in the TypeScript interface `SystemStatus`. -/
structure SystemStatus where
  idm_connected : Bool
  applications_count : Nat
  enrolled_hosts_count : Nat
  trust_domains_count : Nat
  config_path : String
  last_updated : Option String
deriving Repr, DecidableEq

/-- The raw 0–4 score accumulated by `getHealthScore` in the SystemStatus
component: one point per satisfied condition. -/
def healthPoints (st : SystemStatus) : Nat :=
  (if st.idm_connected then 1 else 0) +
  (if st.applications_count > 0 then 1 else 0) +
  (if st.enrolled_hosts_count > 0 then 1 else 0) +
  (if st.trust_domains_count > 0 then 1 else 0)

/-- Embedded from `getHealthScore` in the SystemStatus component: 0 for a
null status, else `round((score / 4) * 100)`; the quotient is exact for
every reachable score, so the rounding is the identity and the value is the
natural-number quotient `score * 100 / 4`. -/
def getHealthScore (systemStatus : Option SystemStatus) : Nat :=
  match systemStatus with
  | none => 0
  | some st => healthPoints st * 100 / 4

/-- Splitting at a separator character is unambiguous when the part before
the separator is separator-free. -/
theorem sep_append_inj (sep : Char) :
    ∀ (a b x y : List Char), sep ∉ a → sep ∉ b →
      a ++ sep :: x = b ++ sep :: y → a = b ∧ x = y := by
  intro a
  induction a with
  | nil =>
    intro b x y _ hb heq
    cases b with
    | nil => simpa using heq
    | cons d bs =>
      simp at heq
      exact absurd (by rw [heq.1]; exact List.mem_cons_self d bs) hb
  | cons c as ih =>
    intro b x y ha hb heq
    cases b with
    | nil =>
      simp at heq
      exact absurd (by rw [← heq.1]; exact List.mem_cons_self c as) ha
    | cons d bs =>
      simp at heq
      obtain ⟨hcd, htail⟩ := heq
      have ha2 : sep ∉ as := fun h => ha (List.mem_cons_of_mem _ h)
      have hb2 : sep ∉ bs := fun h => hb (List.mem_cons_of_mem _ h)
      obtain ⟨h1, h2⟩ := ih bs x y ha2 hb2 htail
      exact ⟨by rw [hcd, h1], h2⟩

/-- Character-level decomposition of a canonical group name. -/
theorem canonicalGroupName_data (a e r : String) :
    (canonicalGroupName a e r).data =
      'I' :: 'd' :: 'M' :: '_' ::
        ((strToLower a).data ++ '_' :: ((strToLower e).data ++ '_' :: (strToLower r).data)) := by
  simp [canonicalGroupName, String.data_append, List.append_assoc]

/-- Character-level decomposition of an external group reference. -/
theorem externalGroupReference_data (n g : String) :
    (externalGroupReference n g).data = n.data ++ '\\' :: g.data := by
  simp [externalGroupReference, String.data_append]

/-- The canonical group name determines its three lower-cased components as
long as none of them contains an underscore. -/
theorem canonicalGroupName_components (a1 e1 r1 a2 e2 r2 : String)
    (ha1 : '_' ∉ (strToLower a1).data) (ha2 : '_' ∉ (strToLower a2).data)
    (he1 : '_' ∉ (strToLower e1).data) (he2 : '_' ∉ (strToLower e2).data)
    (heq : canonicalGroupName a1 e1 r1 = canonicalGroupName a2 e2 r2) :
    strToLower a1 = strToLower a2 ∧ strToLower e1 = strToLower e2 ∧
      strToLower r1 = strToLower r2 := by
  have hd := congrArg String.data heq
  rw [canonicalGroupName_data, canonicalGroupName_data] at hd
  simp at hd
  obtain ⟨hA, hrest⟩ := sep_append_inj '_' _ _ _ _ ha1 ha2 hd
  obtain ⟨hE, hR⟩ := sep_append_inj '_' _ _ _ _ he1 he2 hrest
  exact ⟨String.ext hA, String.ext hE, String.ext hR⟩

/-- Claim C2 (counterexample): the name sets are not collision-free across
all pairs of distinct applications — the applications "Webapp" and "webapp"
are distinct yet receive the same canonical group name, because the naming
pattern lower-cases the application component. -/
theorem canonicalGroupName_collision :
    canonicalGroupName "Webapp" "dev" "full" = canonicalGroupName "webapp" "dev" "full" ∧
    "Webapp" ≠ "webapp" := by
  exact ⟨by decide, by decide⟩

/-- Claim C2 (amended): `canonicalGroupName` yields
`IdM_{application}_{environment}_{role}` with the components lower-cased, so
`canonicalGroupName "webapp" "dev" "full" = "IdM_webapp_dev_full"`;
`externalGroupReference` yields `{netbios_name}\{group_name}`, so
`externalGroupReference "ACME" "IdM_webapp_dev_full" =
"ACME\IdM_webapp_dev_full"`; the group-name set is collision-free across
applications whose lower-cased names differ, provided the lower-cased
application and environment components are underscore-free, and the external
references are collision-free for backslash-free NetBIOS names. -/
theorem naming_contract :
    canonicalGroupName "webapp" "dev" "full" = "IdM_webapp_dev_full" ∧
    externalGroupReference "ACME" "IdM_webapp_dev_full" = "ACME\\IdM_webapp_dev_full" ∧
    (∀ a1 e1 r1 a2 e2 r2 : String,
      '_' ∉ (strToLower a1).data → '_' ∉ (strToLower a2).data →
      '_' ∉ (strToLower e1).data → '_' ∉ (strToLower e2).data →
      strToLower a1 ≠ strToLower a2 →
      canonicalGroupName a1 e1 r1 ≠ canonicalGroupName a2 e2 r2) ∧
    (∀ n1 g1 n2 g2 : String, '\\' ∉ n1.data → '\\' ∉ n2.data →
      externalGroupReference n1 g1 = externalGroupReference n2 g2 →
      n1 = n2 ∧ g1 = g2) := by
  refine ⟨by decide, by decide, ?_, ?_⟩
  · intro a1 e1 r1 a2 e2 r2 ha1 ha2 he1 he2 hne heq
    exact hne (canonicalGroupName_components a1 e1 r1 a2 e2 r2 ha1 ha2 he1 he2 heq).1
  · intro n1 g1 n2 g2 hn1 hn2 heq
    have hd := congrArg String.data heq
    rw [externalGroupReference_data, externalGroupReference_data] at hd
    obtain ⟨h1, h2⟩ := sep_append_inj '\\' _ _ _ _ hn1 hn2 hd
    exact ⟨String.ext h1, String.ext h2⟩

/-- Witness for the amended claim C2 at concrete inputs: the applications
"webapp" and "db" receive different canonical group names. -/
theorem naming_contract_witness :
    canonicalGroupName "webapp" "dev" "full" ≠ canonicalGroupName "db" "dev" "full" :=
  naming_contract.2.2.1 "webapp" "dev" "full" "db" "dev" "full"
    (by decide) (by decide) (by decide) (by decide) (by decide)

/-- Claim C4: on completion of an apply pass the executor sets
`last_applied` to the current time and fully replaces `last_apply_results`
with the new result set, retaining no prior entries; applying twice in a row
advances `last_applied` both times. -/
theorem applyWrite_postconditions :
    ∀ (app : Application) (t1 t2 : Nat) (r1 r2 : ApplyResultSet),
      (applyWrite app t1 r1).last_applied = some t1 ∧
      (applyWrite app t1 r1).last_apply_results = some r1 ∧
      (applyWrite (applyWrite app t1 r1) t2 r2).last_applied = some t2 ∧
      (applyWrite (applyWrite app t1 r1) t2 r2).last_apply_results = some r2 := by
  intro app t1 t2 r1 r2
  exact ⟨rfl, rfl, rfl, rfl⟩

/-- Claim C7: a plain edit of name, description, realms or environments
bumps `updated_at` and leaves `last_applied`, `last_apply_results` and
`created_at` unchanged; conversely the apply result-write sets only
`last_applied` and `last_apply_results` and does not bump `updated_at` nor
touch any edited field. -/
theorem edit_apply_frame :
    ∀ (app : Application) (now : Nat) (n d : String) (rs : List String)
      (es : List Environment) (t : Nat) (res : ApplyResultSet),
      (editApplication app now n d rs es).updated_at = now ∧
      (editApplication app now n d rs es).last_applied = app.last_applied ∧
      (editApplication app now n d rs es).last_apply_results = app.last_apply_results ∧
      (editApplication app now n d rs es).created_at = app.created_at ∧
      (applyWrite app t res).updated_at = app.updated_at ∧
      (applyWrite app t res).name = app.name ∧
      (applyWrite app t res).description = app.description ∧
      (applyWrite app t res).realms = app.realms ∧
      (applyWrite app t res).environments = app.environments ∧
      (applyWrite app t res).last_applied = some t ∧
      (applyWrite app t res).last_apply_results = some res := by
  intro app now n d rs es t res
  exact ⟨rfl, rfl, rfl, rfl, rfl, rfl, rfl, rfl, rfl, rfl, rfl⟩

/-- Claim C10: `getHealthScore` returns 0 on a null system status, otherwise
25 points for each of the four satisfied conditions, and its value always
lies in {0, 25, 50, 75, 100}. -/
theorem getHealthScore_range :
    getHealthScore none = 0 ∧
    (∀ st, getHealthScore (some st) = 25 * healthPoints st) ∧
    (∀ s, getHealthScore s ∈ ([0, 25, 50, 75, 100] : List Nat)) := by
  have hval : ∀ st, getHealthScore (some st) = 25 * healthPoints st := by
    intro st
    show healthPoints st * 100 / 4 = 25 * healthPoints st
    omega
  refine ⟨rfl, hval, ?_⟩
  intro s
  match s with
  | none => simp [getHealthScore]
  | some st =>
    have h4 : healthPoints st ≤ 4 := by
      unfold healthPoints
      split_ifs <;> omega
    rw [hval st]
    interval_cases h : healthPoints st <;> decide

/-- Claim C9: for every non-null apply-results value `getApplyResultsSummary`
returns exactly the five categories in their fixed order, with
`successful <= total` in every row, reporting an absent category key as 0 of
0 instead of failing; it returns null exactly when its input is null. -/
theorem getApplyResultsSummary_shape :
    (∀ results : Option ApplyResultSet,
      getApplyResultsSummary results = none ↔ results = none) ∧
    (∀ r : ApplyResultSet,
      ((getApplyResultsSummary (some r)).getD []).map (fun s => s.category) = categoryKeys) ∧
    (∀ r : ApplyResultSet, ((getApplyResultsSummary (some r)).getD []).length = 5) ∧
    (∀ r : ApplyResultSet, ∀ s ∈ (getApplyResultsSummary (some r)).getD [],
      s.successful ≤ s.total) ∧
    (∀ r : ApplyResultSet, ∀ ck ∈ categoryKeys, findEntry ck r = none →
      (⟨ck, 0, 0⟩ : CategorySummary) ∈ (getApplyResultsSummary (some r)).getD []) := by
  refine ⟨?_, ?_, ?_, ?_, ?_⟩
  · intro results
    cases results <;> simp [getApplyResultsSummary]
  · intro r
    rfl
  · intro r
    simp [getApplyResultsSummary, categoryKeys]
  · intro r s hs
    simp [getApplyResultsSummary] at hs
    obtain ⟨ck, _, hck⟩ := hs
    rw [← hck]
    exact List.length_filter_le _ _
  · intro r ck hck hnone
    simp [getApplyResultsSummary]
    exact ⟨ck, hck, by simp [hnone]⟩

/-- Witness for claim C9 at a concrete result set missing the
`external_groups` key: that category is summarised as 0 of 0. -/
theorem getApplyResultsSummary_shape_witness :
    (⟨"external_groups", 0, 0⟩ : CategorySummary) ∈
      (getApplyResultsSummary
        (some [("hostgroups", [("IdM_webapp_dev_full_hosts", ⟨true, "created"⟩)])])).getD [] :=
  getApplyResultsSummary_shape.2.2.2.2
    [("hostgroups", [("IdM_webapp_dev_full_hosts", ⟨true, "created"⟩)])]
    "external_groups" (by decide) (by decide)

/-- Claim C5: staleness is a derived predicate of the record fields — for an
applied application the status computation reports `destructive` exactly
when `updated_at > last_applied`; immediately after an apply at a time not
earlier than `updated_at` the application is not stale, and after a
subsequent edit at a strictly later time it is stale until the next apply. -/
theorem staleness_law :
    (∀ (app : Application) (la : Nat), app.last_applied = some la →
      (getApplicationStatusColor app = "destructive" ↔ isStale app = true)) ∧
    (∀ (app : Application) (t : Nat) (r : ApplyResultSet), app.updated_at ≤ t →
      isStale (applyWrite app t r) = false) ∧
    (∀ (app : Application) (t : Nat) (r : ApplyResultSet) (tEdit : Nat)
      (n d : String) (rs : List String) (es : List Environment), t < tEdit →
      isStale (editApplication (applyWrite app t r) tEdit n d rs es) = true) := by
  refine ⟨?_, ?_, ?_⟩
  · intro app la hla
    simp only [getApplicationStatusColor, isStale, hla]
    split_ifs with h <;> simp <;> omega
  · intro app t r h
    simp [isStale, applyWrite]
    omega
  · intro app t r tEdit n d rs es h
    simp [isStale, applyWrite, editApplication]
    omega

/-- Witness for claim C5 at a concrete application: after applying at time
10 an application last edited at time 5 it is not stale, and after a
subsequent edit at time 11 it is stale. -/
theorem staleness_law_witness :
    isStale (applyWrite ⟨"webapp", "", ["ACME"], [], 0, 5, none, none⟩ 10 []) = false ∧
    isStale (editApplication
      (applyWrite ⟨"webapp", "", ["ACME"], [], 0, 5, none, none⟩ 10 [])
      11 "webapp" "" ["ACME"] []) = true :=
  ⟨staleness_law.2.1 ⟨"webapp", "", ["ACME"], [], 0, 5, none, none⟩ 10 [] (by decide),
   staleness_law.2.2 ⟨"webapp", "", ["ACME"], [], 0, 5, none, none⟩ 10 [] 11
     "webapp" "" ["ACME"] [] (by decide)⟩

/-- Claim C8: a request created through the direct-grant path with a
duration of `d` hours expires exactly `d` hours after `requested_at` and is
materialized approved; once current time passes `expires_at` a status read
or sweep yields `expired` and never `approved`; `denied` and `expired` are
terminal under every transition. -/
theorem temporary_access_law :
    (∀ (id u dom a e ro re rb : String) (d now : Nat),
      (grantAccess id u dom a e ro re rb d now).requested_at = now ∧
      (grantAccess id u dom a e ro re rb d now).expires_at = now + d * 3600 ∧
      (grantAccess id u dom a e ro re rb d now).status = ReqStatus.approved) ∧
    (∀ (req : TemporaryAccessRequest) (now : Nat), req.expires_at < now →
      readStatus req now ≠ ReqStatus.approved) ∧
    (∀ (req : TemporaryAccessRequest) (now : Nat),
      req.status = ReqStatus.approved → req.expires_at < now →
      readStatus req now = ReqStatus.expired ∧
      (sweepRequest req now).status = ReqStatus.expired) ∧
    (∀ (req : TemporaryAccessRequest) (ap : String) (now now2 : Nat),
      req.status = ReqStatus.expired →
      (approveRequest req ap now).status = ReqStatus.expired ∧
      (denyRequest req).status = ReqStatus.expired ∧
      (revokeRequest req).status = ReqStatus.expired ∧
      (sweepRequest req now2).status = ReqStatus.expired ∧
      readStatus req now2 = ReqStatus.expired) ∧
    (∀ (req : TemporaryAccessRequest) (ap : String) (now now2 : Nat),
      req.status = ReqStatus.denied →
      (approveRequest req ap now).status = ReqStatus.denied ∧
      (denyRequest req).status = ReqStatus.denied ∧
      (revokeRequest req).status = ReqStatus.denied ∧
      (sweepRequest req now2).status = ReqStatus.denied ∧
      readStatus req now2 = ReqStatus.denied) := by
  refine ⟨?_, ?_, ?_, ?_, ?_⟩
  · intro id u dom a e ro re rb d now
    exact ⟨rfl, rfl, rfl⟩
  · intro req now hlt
    unfold readStatus
    split_ifs with h
    · decide
    · intro hc
      exact h ⟨hc, hlt⟩
  · intro req now hst hlt
    constructor
    · simp [readStatus, hst, hlt]
    · simp [sweepRequest, hst, hlt]
  · intro req ap now now2 hst
    refine ⟨?_, ?_, ?_, ?_, ?_⟩ <;>
      simp [approveRequest, denyRequest, revokeRequest, sweepRequest, readStatus, hst]
  · intro req ap now now2 hst
    refine ⟨?_, ?_, ?_, ?_, ?_⟩ <;>
      simp [approveRequest, denyRequest, revokeRequest, sweepRequest, readStatus, hst]

/-- Witness for claim C8 at a concrete grant: a 4-hour grant issued at time
100 expires at 14500, and a status read one second after expiry yields
`expired`. -/
theorem temporary_access_law_witness :
    (grantAccess "1" "alice" "ACME" "webapp" "dev" "full" "debug" "admin" 4 100).expires_at
      = 100 + 4 * 3600 ∧
    readStatus (grantAccess "1" "alice" "ACME" "webapp" "dev" "full" "debug" "admin" 4 100)
      14501 = ReqStatus.expired :=
  ⟨(temporary_access_law.1 "1" "alice" "ACME" "webapp" "dev" "full" "debug" "admin" 4 100).2.1,
   (temporary_access_law.2.2.1
     (grantAccess "1" "alice" "ACME" "webapp" "dev" "full" "debug" "admin" 4 100)
     14501 (by decide) (by decide)).1⟩

/-- On a role list fully covered by the catalog, the innermost builder loop
produces the role-major concatenation of the five-object bundles. -/
theorem buildRoles_ok (appName nb : String) (env : Environment) :
    ∀ roles : List String, (∀ role ∈ roles, (findEntry role roleCatalog).isSome) →
      buildRoles appName nb env roles =
        Except.ok (roles.flatMap fun role =>
          objectsFor appName nb env role ((findEntry role roleCatalog).getD [])) := by
  intro roles
  induction roles with
  | nil => intro _; rfl
  | cons role rest ih =>
    intro h
    obtain ⟨cmds, hc⟩ := Option.isSome_iff_exists.mp (h role (by simp))
    have hrest := ih (fun ro hro => h ro (by simp [hro]))
    simp [buildRoles, hc, hrest]

/-- On environments whose roles are fully covered by the catalog, the middle
builder loop produces the environment-major concatenation. -/
theorem buildEnvs_ok (appName nb : String) :
    ∀ envs : List Environment,
      (∀ env ∈ envs, ∀ role ∈ env.roles, (findEntry role roleCatalog).isSome) →
      buildEnvs appName nb envs =
        Except.ok (envs.flatMap fun env => env.roles.flatMap fun role =>
          objectsFor appName nb env role ((findEntry role roleCatalog).getD [])) := by
  intro envs
  induction envs with
  | nil => intro _; rfl
  | cons env rest ih =>
    intro h
    have hhead := buildRoles_ok appName nb env env.roles (h env (by simp))
    have hrest := ih (fun e he ro hro => h e (by simp [he]) ro hro)
    simp [buildEnvs, hhead, hrest]

/-- On valid realms and catalog-covered roles, the outer builder loop
produces the realm-major concatenation. -/
theorem buildRealms_ok (app : Application) (tds : List TrustDomain)
    (hroles : ∀ env ∈ app.environments, ∀ role ∈ env.roles,
      (findEntry role roleCatalog).isSome) :
    ∀ realms : List String, (∀ realm ∈ realms, validRealm tds realm = true) →
      buildRealms app tds realms =
        Except.ok (realms.flatMap fun realm =>
          app.environments.flatMap fun env => env.roles.flatMap fun role =>
            objectsFor app.name realm env role ((findEntry role roleCatalog).getD [])) := by
  intro realms
  induction realms with
  | nil => intro _; rfl
  | cons realm rest ih =>
    intro h
    have hvalid := h realm (by simp)
    have hhead := buildEnvs_ok app.name realm app.environments hroles
    have hrest := ih (fun re hre => h re (by simp [hre]))
    simp [buildRealms, hvalid, hhead, hrest]

/-- Claim C1: for an application whose realms all validate against the
trust-domain list and whose roles are all in the fixed catalog, `build`
returns exactly the realm-major, then environment, then role enumeration in
declared order, with exactly five objects per (realm, environment, role)
triple — one host group, one external group, one POSIX group, one HBAC rule
and one sudo rule, in that order.  `build` is a pure function, so the
equation also shows that two calls on identical input return the same list
in the same order. -/
theorem build_enumeration (app : Application) (tds : List TrustDomain)
    (hrealms : ∀ realm ∈ app.realms, validRealm tds realm = true)
    (hroles : ∀ env ∈ app.environments, ∀ role ∈ env.roles,
      (findEntry role roleCatalog).isSome) :
    build app tds = Except.ok (desiredList app) ∧
    (∀ (appName nb : String) (env : Environment) (role : String) (cmds : List String),
      ((objectsFor appName nb env role cmds).map fun o => o.category) =
        [ObjCategory.hostgroup, ObjCategory.external_group, ObjCategory.posix_group,
         ObjCategory.hbac_rule, ObjCategory.sudo_rule] ∧
      (objectsFor appName nb env role cmds).length = 5) := by
  constructor
  · unfold build desiredList
    exact buildRealms_ok app tds hroles app.realms hrealms
  · intro appName nb env role cmds
    exact ⟨rfl, rfl⟩

/-- Witness for claim C1 at a concrete one-realm, one-environment,
one-role application. -/
theorem build_enumeration_witness :
    build ⟨"webapp", "web servers", ["ACME"],
        [⟨"dev", "*{app}*dev*", ["full"]⟩], 0, 0, none, none⟩
      [⟨"acme.com", "ACME", "ACME.COM", "ad"⟩] =
      Except.ok (desiredList ⟨"webapp", "web servers", ["ACME"],
        [⟨"dev", "*{app}*dev*", ["full"]⟩], 0, 0, none, none⟩) :=
  (build_enumeration
    ⟨"webapp", "web servers", ["ACME"], [⟨"dev", "*{app}*dev*", ["full"]⟩], 0, 0, none, none⟩
    [⟨"acme.com", "ACME", "ACME.COM", "ad"⟩]
    (by decide) (by decide)).1

/-- The innermost builder loop only ever fails with `UnknownRole` on a role
that is missing from the catalog. -/
theorem buildRoles_error_shape (appName nb : String) (env : Environment) :
    ∀ (roles : List String) (e : BuildError),
      buildRoles appName nb env roles = Except.error e →
      ∃ r, findEntry r roleCatalog = none ∧ e = BuildError.UnknownRole r := by
  intro roles
  induction roles with
  | nil => intro e h; simp [buildRoles] at h
  | cons role rest ih =>
    intro e h
    unfold buildRoles at h
    cases hf : findEntry role roleCatalog with
    | none =>
      rw [hf] at h
      simp at h
      exact ⟨role, hf, h.symm⟩
    | some cmds =>
      rw [hf] at h
      cases hr : buildRoles appName nb env rest with
      | error e2 =>
        rw [hr] at h
        simp at h
        exact h ▸ ih e2 hr
      | ok objs =>
        rw [hr] at h
        simp at h

/-- Any role list containing a role missing from the catalog makes the
innermost builder loop fail with `UnknownRole`. -/
theorem buildRoles_bad (appName nb : String) (env : Environment) :
    ∀ roles : List String, (∃ role ∈ roles, findEntry role roleCatalog = none) →
      ∃ r, findEntry r roleCatalog = none ∧
        buildRoles appName nb env roles = Except.error (BuildError.UnknownRole r) := by
  intro roles
  induction roles with
  | nil => intro h; simp at h
  | cons role rest ih =>
    intro h
    cases hf : findEntry role roleCatalog with
    | none => exact ⟨role, hf, by simp [buildRoles, hf]⟩
    | some cmds =>
      have hbad : ∃ ro ∈ rest, findEntry ro roleCatalog = none := by
        obtain ⟨ro, hmem, hro⟩ := h
        rcases List.mem_cons.mp hmem with h1 | h1
        · subst h1; rw [hf] at hro; exact absurd hro (by simp)
        · exact ⟨ro, h1, hro⟩
      obtain ⟨r, hrnone, herr⟩ := ih hbad
      exact ⟨r, hrnone, by simp [buildRoles, hf, herr]⟩

/-- Any environment list containing an environment with a role missing from
the catalog makes the middle builder loop fail with `UnknownRole`. -/
theorem buildEnvs_bad (appName nb : String) :
    ∀ envs : List Environment,
      (∃ env ∈ envs, ∃ role ∈ env.roles, findEntry role roleCatalog = none) →
      ∃ r, findEntry r roleCatalog = none ∧
        buildEnvs appName nb envs = Except.error (BuildError.UnknownRole r) := by
  intro envs
  induction envs with
  | nil => intro h; simp at h
  | cons env rest ih =>
    intro h
    cases hr : buildRoles appName nb env env.roles with
    | error e =>
      obtain ⟨r, hrnone, he⟩ := buildRoles_error_shape appName nb env env.roles e hr
      exact ⟨r, hrnone, by simp [buildEnvs, hr, he]⟩
    | ok objs =>
      have hbad : ∃ env2 ∈ rest, ∃ role ∈ env2.roles, findEntry role roleCatalog = none := by
        obtain ⟨env2, hmem, hb⟩ := h
        rcases List.mem_cons.mp hmem with h1 | h1
        · subst h1
          obtain ⟨r, _, herr⟩ := buildRoles_bad appName nb env2 env2.roles hb
          exact absurd (hr.symm.trans herr) (by simp)
        · exact ⟨env2, h1, hb⟩
      obtain ⟨r, hrnone, herr⟩ := ih hbad
      exact ⟨r, hrnone, by simp [buildEnvs, hr, herr]⟩

/-- Claim C6: for an application with at least one valid realm, an
environment listing a role absent from the fixed catalog makes `build` fail
with `UnknownRole`, producing no desired objects at all — an unrecognized
role is a validation error, never silently ignored. -/
theorem unknown_role_rejected (app : Application) (tds : List TrustDomain)
    (hne : app.realms ≠ [])
    (hrealms : ∀ realm ∈ app.realms, validRealm tds realm = true)
    (hbad : ∃ env ∈ app.environments, ∃ role ∈ env.roles,
      findEntry role roleCatalog = none) :
    (∃ r, findEntry r roleCatalog = none ∧
      build app tds = Except.error (BuildError.UnknownRole r)) ∧
    ∀ objs, build app tds ≠ Except.ok objs := by
  obtain ⟨r0, rest, hr0⟩ : ∃ r0 rest, app.realms = r0 :: rest := by
    cases h : app.realms with
    | nil => exact absurd h hne
    | cons a b => exact ⟨a, b, rfl⟩
  obtain ⟨r, hrnone, herr⟩ := buildEnvs_bad app.name r0 app.environments hbad
  have hvalid : validRealm tds r0 = true := hrealms r0 (by rw [hr0]; simp)
  have hb : build app tds = Except.error (BuildError.UnknownRole r) := by
    unfold build
    rw [hr0]
    simp [buildRealms, hvalid, herr]
  refine ⟨⟨r, hrnone, hb⟩, fun objs hok => ?_⟩
  rw [hb] at hok
  simp at hok

/-- Witness for claim C6 at a concrete application whose dev environment
lists the unknown role "superadmin". -/
theorem unknown_role_rejected_witness :
    ∃ r, findEntry r roleCatalog = none ∧
      build ⟨"webapp", "", ["ACME"],
          [⟨"dev", "*{app}*dev*", ["superadmin"]⟩], 0, 0, none, none⟩
        [⟨"acme.com", "ACME", "ACME.COM", "ad"⟩] =
        Except.error (BuildError.UnknownRole r) :=
  (unknown_role_rejected
    ⟨"webapp", "", ["ACME"], [⟨"dev", "*{app}*dev*", ["superadmin"]⟩], 0, 0, none, none⟩
    [⟨"acme.com", "ACME", "ACME.COM", "ad"⟩]
    (by decide) (by decide) (by decide)).1

/-- Looking a key up in an association list built by tagging each key of a
key list with a value finds the value of that key. -/
theorem findEntry_map {α : Type} (g : String → α) :
    ∀ (keys : List String) (k : String), k ∈ keys →
      findEntry k (keys.map fun ck => (ck, g ck)) = some (g k) := by
  intro keys
  induction keys with
  | nil => intro k h; simp at h
  | cons ck rest ih =>
    intro k hmem
    by_cases hk : ck = k
    · subst hk
      simp [findEntry]
    · have : k ∈ rest := by
        rcases List.mem_cons.mp hmem with h1 | h1
        · exact absurd h1.symm hk
        · exact h1
      simp [findEntry, hk, ih k this]

/-- Filtering the failing entries of an apply pass is the same as mapping
the objects whose ensure operation fails. -/
theorem applyAll_filter_failures (ensure : DesiredObject → Except String String)
    (objs : List DesiredObject) :
    ((applyAll ensure objs).filter fun p => !p.2.success) =
      ((objs.filter (ensureFails ensure)).map
        fun o => (o.canonical_name, ensureOne ensure o)) := by
  have hpred : ((fun p : String × ApplyEntry => !p.2.success) ∘
      fun o : DesiredObject => (o.canonical_name, ensureOne ensure o)) =
        ensureFails ensure := by
    funext o
    simp only [Function.comp]
    unfold ensureFails ensureOne
    cases ensure o <;> rfl
  unfold applyAll
  rw [List.filter_map, hpred]

/-- Claim C3: the reconciliation executor attempts every desired object
exactly once per invocation; a failure of one ensure operation is caught and
recorded under the object's own category as `{success := false,
output_or_error := message}` and never aborts the remaining objects — the
i-th result entry is always the true outcome of the i-th object, and when
exactly one of the objects fails the result list carries exactly one failing
entry. -/
theorem apply_failure_isolation :
    (∀ (ensure : DesiredObject → Except String String) (objs : List DesiredObject),
      (applyAll ensure objs).length = objs.length) ∧
    (∀ (ensure : DesiredObject → Except String String) (objs : List DesiredObject)
      (i : Nat), (applyAll ensure objs)[i]? =
        (objs[i]?).map fun o => (o.canonical_name, ensureOne ensure o)) ∧
    (∀ (ensure : DesiredObject → Except String String) (o : DesiredObject)
      (msg : String), ensure o = Except.error msg →
      ensureOne ensure o = ⟨false, msg⟩) ∧
    (∀ (ensure : DesiredObject → Except String String) (objs : List DesiredObject),
      (objs.filter (ensureFails ensure)).length = 1 →
      ((applyAll ensure objs).filter fun p => !p.2.success).length = 1) ∧
    (∀ (ensure : DesiredObject → Except String String) (objs : List DesiredObject)
      (o : DesiredObject), o ∈ objs →
      (o.canonical_name, ensureOne ensure o) ∈
        (findEntry (categoryKey o.category) (applyResultSet ensure objs)).getD []) := by
  refine ⟨?_, ?_, ?_, ?_, ?_⟩
  · intro ensure objs
    simp [applyAll]
  · intro ensure objs i
    simp [applyAll, List.getElem?_map]
  · intro ensure o msg h
    simp [ensureOne, h]
  · intro ensure objs h
    rw [applyAll_filter_failures, List.length_map]
    exact h
  · intro ensure objs o hmem
    have hkey : categoryKey o.category ∈ categoryKeys := by
      cases o.category <;> decide
    unfold applyResultSet
    rw [findEntry_map _ categoryKeys _ hkey]
    simp only [Option.getD_some]
    unfold applyAll
    exact List.mem_map.mpr ⟨o, List.mem_filter.mpr ⟨hmem, by simp⟩, rfl⟩

/-- Witness for claim C3: with three desired objects of which exactly the
second fails, the executor records exactly one failing entry. -/
theorem apply_failure_isolation_witness :
    ((applyAll
        (fun o => if o.canonical_name = "b" then Except.error "boom" else Except.ok "done")
        [⟨ObjCategory.posix_group, "a", []⟩, ⟨ObjCategory.posix_group, "b", []⟩,
         ⟨ObjCategory.posix_group, "c", []⟩]).filter fun p => !p.2.success).length = 1 :=
  apply_failure_isolation.2.2.2.1
    (fun o => if o.canonical_name = "b" then Except.error "boom" else Except.ok "done")
    [⟨ObjCategory.posix_group, "a", []⟩, ⟨ObjCategory.posix_group, "b", []⟩,
     ⟨ObjCategory.posix_group, "c", []⟩]
    (by decide)

end IdmAcf
